import Mathlib

/-!
Verification development for the pocket-link-manager content-acquisition
pipeline.  Python strings are modelled as `List Char` (Unicode scalar values;
Python strings containing lone surrogates are not representable — on such
inputs the modelled library calls would raise `UnicodeEncodeError`, which
`remove_utm_parameters` catches, returning its input unchanged).  Bytes are
modelled as `Nat` values below 256.  The `urllib.parse` functions are
modelled after CPython 3.12 (the repository requires Python >= 3.12, see
src/scripts/utils/check_python_version.py).
-/

set_option maxRecDepth 4000
set_option linter.unusedVariables false

abbrev Str := List Char

namespace PLM

/-! ## Character constants and classes -/

def chTab : Char := Char.ofNat 0x09

def chLF : Char := Char.ofNat 0x0A

def chCR : Char := Char.ofNat 0x0D

def chSpace : Char := Char.ofNat 0x20

def chHash : Char := Char.ofNat 0x23

def chPercent : Char := Char.ofNat 0x25

def chAmp : Char := Char.ofNat 0x26

def chPlus : Char := Char.ofNat 0x2B

def chSlash : Char := Char.ofNat 0x2F

def chColon : Char := Char.ofNat 0x3A

def chSemi : Char := Char.ofNat 0x3B

def chEq : Char := Char.ofNat 0x3D

def chQmark : Char := Char.ofNat 0x3F

def chLBrack : Char := Char.ofNat 0x5B

def chRBrack : Char := Char.ofNat 0x5D

def isAsciiUpperC (c : Char) : Bool := 0x41 ≤ c.toNat && c.toNat ≤ 0x5A

def isAsciiLowerC (c : Char) : Bool := 0x61 ≤ c.toNat && c.toNat ≤ 0x7A

def isAsciiAlphaC (c : Char) : Bool := isAsciiUpperC c || isAsciiLowerC c

def isAsciiDigitC (c : Char) : Bool := 0x30 ≤ c.toNat && c.toNat ≤ 0x39

/-- ASCII lowering of one character.  Python `str.lower()` is Unicode-aware;
only its action on ASCII letters is relevant to anything proved here (the
strings it is compared against — scheme characters, `utm_`, YAML literals —
are ASCII, and no non-ASCII character lowercases to an ASCII letter that
could complete the substring `utm_`). -/
def lowerC (c : Char) : Char :=
  if isAsciiUpperC c then Char.ofNat (c.toNat + 32) else c

/-- Model of Python `str.lower()` (ASCII fragment, see `lowerC`). -/
def pyLower (s : Str) : Str := s.map lowerC

/-- Model of Python `str.replace(a, b)` for single-character `a`, `b`. -/
def pyReplaceChar (a b : Char) (s : Str) : Str :=
  s.map (fun c => if c = a then b else c)

/-- Substring test: Python `needle in s`. -/
def containsSub (needle : Str) : Str → Bool
  | [] => needle.isEmpty
  | c :: rest => needle.isPrefixOf (c :: rest) || containsSub needle rest

/-! ## Splitting helpers (Python `str.find` / `partition` / `split(sep, 1)`) -/

/-- Split a string at the first occurrence of `c` (the separator is dropped):
Python `s.partition(c)` / `s.split(c, 1)` when the separator occurs, `none`
when it does not. -/
def findSplit (c : Char) : Str → Option (Str × Str)
  | [] => none
  | d :: rest =>
    if d = c then some ([], rest)
    else match findSplit c rest with
      | some (pre, post) => some (d :: pre, post)
      | none => none

/-- Split at the last occurrence of `c`. -/
def splitLast (c : Char) (s : Str) : Option (Str × Str) :=
  match findSplit c s.reverse with
  | some (rpost, rpre) => some (rpre.reverse, rpost.reverse)
  | none => none

/-- Python `s.split(sep)` for a single-character separator (`''.split` edge
case handled by callers). -/
def pySplitSep (sep : Char) : Str → List Str
  | [] => [[]]
  | c :: rest =>
    match pySplitSep sep rest with
    | [] => []
    | h :: t => if c = sep then [] :: h :: t else (c :: h) :: t

/-- Join with a single-character separator: Python `sep.join(xs)`. -/
def joinSep (sep : Char) : List Str → Str
  | [] => []
  | [x] => x
  | x :: y :: xs => x ++ sep :: joinSep sep (y :: xs)

/-! ## UTF-8 (Python `str.encode('utf-8')` / `bytes.decode('utf-8', 'replace')`) -/

/-- UTF-8 encoding of one Unicode scalar value given as a `Nat`. -/
def utf8EncN (n : Nat) : List Nat :=
  if n < 0x80 then [n]
  else if n < 0x800 then [0xC0 + n / 64, 0x80 + n % 64]
  else if n < 0x10000 then [0xE0 + n / 4096, 0x80 + n / 64 % 64, 0x80 + n % 64]
  else [0xF0 + n / 262144, 0x80 + n / 4096 % 64, 0x80 + n / 64 % 64, 0x80 + n % 64]

def utf8EncodeChar (c : Char) : List Nat := utf8EncN c.toNat

/-- Python `s.encode('utf-8')`. -/
def utf8Encode (s : Str) : List Nat := (s.map utf8EncodeChar).flatten

/-- The replacement character U+FFFD used by the `errors='replace'` handler. -/
def replChar : Char := Char.ofNat 0xFFFD

def isContB (b : Nat) : Bool := 0x80 ≤ b && b ≤ 0xBF

/-- Allowed second byte of a three-byte sequence (excludes overlong forms and
surrogates, as CPython's decoder does). -/
def cont2Ok (b1 b2 : Nat) : Bool :=
  if b1 = 0xE0 then 0xA0 ≤ b2 && b2 ≤ 0xBF
  else if b1 = 0xED then 0x80 ≤ b2 && b2 ≤ 0x9F
  else isContB b2

/-- Allowed second byte of a four-byte sequence. -/
def cont3Ok (b1 b2 : Nat) : Bool :=
  if b1 = 0xF0 then 0x90 ≤ b2 && b2 ≤ 0xBF
  else if b1 = 0xF4 then 0x80 ≤ b2 && b2 ≤ 0x8F
  else isContB b2

/-- Decoder state: `u0` between sequences, `uMid need acc lo hi` inside a
multi-byte sequence still expecting `need` continuation bytes, the next of
which must lie in `[lo, hi]`. -/
inductive Utf8State
  | u0
  | uMid (need acc lo hi : Nat)

/-- Transition of the decoder on one byte from the initial state. -/
def utf8Start (b : Nat) : Str × Utf8State :=
  if b < 0x80 then ([Char.ofNat b], .u0)
  else if b < 0xC2 then ([replChar], .u0)
  else if b < 0xE0 then ([], .uMid 1 (b - 0xC0) 0x80 0xBF)
  else if b = 0xE0 then ([], .uMid 2 (b - 0xE0) 0xA0 0xBF)
  else if b = 0xED then ([], .uMid 2 (b - 0xE0) 0x80 0x9F)
  else if b < 0xF0 then ([], .uMid 2 (b - 0xE0) 0x80 0xBF)
  else if b = 0xF0 then ([], .uMid 3 (b - 0xF0) 0x90 0xBF)
  else if b = 0xF4 then ([], .uMid 3 (b - 0xF0) 0x80 0x8F)
  else if b < 0xF5 then ([], .uMid 3 (b - 0xF0) 0x80 0xBF)
  else ([replChar], .u0)

/-- One step of the decoder.  A byte outside the expected continuation range
ends the current (ill-formed) sequence with a single replacement character
and is reprocessed from the initial state (CPython's maximal-subpart rule). -/
def utf8Step : Utf8State → Nat → Str × Utf8State
  | .u0, b => utf8Start b
  | .uMid need acc lo hi, b =>
    if lo ≤ b ∧ b ≤ hi then
      if need = 1 then ([Char.ofNat (acc * 64 + (b - 0x80))], .u0)
      else ([], .uMid (need - 1) (acc * 64 + (b - 0x80)) 0x80 0xBF)
    else
      match utf8Start b with
      | (out, st) => (replChar :: out, st)

def utf8DecodeGo : Utf8State → List Nat → Str
  | st, [] =>
    match st with
    | .u0 => []
    | .uMid _ _ _ _ => [replChar]
  | st, b :: rest =>
    match utf8Step st b with
    | (out, st2) => out ++ utf8DecodeGo st2 rest

/-- Python `bytes.decode('utf-8', errors='replace')`: CPython emits one
U+FFFD per maximal subpart of an ill-formed subsequence and resumes at the
first byte that broke the sequence. -/
def utf8Decode (bs : List Nat) : Str := utf8DecodeGo .u0 bs

/-! ## Percent encoding: `urllib.parse.quote_plus` / `unquote` -/

/-- `_ALWAYS_SAFE` bytes: ASCII letters, digits, `_.-~`. -/
def alwaysSafeB (b : Nat) : Bool :=
  (0x41 ≤ b && b ≤ 0x5A) || (0x61 ≤ b && b ≤ 0x7A) || (0x30 ≤ b && b ≤ 0x39) ||
    b == 0x5F || b == 0x2E || b == 0x2D || b == 0x7E

def hexUpper (n : Nat) : Char :=
  if n < 10 then Char.ofNat (0x30 + n) else Char.ofNat (0x37 + n)

/-- One byte of `quote_from_bytes` output; `spaceSafe = true` corresponds to
`safe=' '` (the branch `quote_plus` takes when the input contains a space). -/
def quoteByte (spaceSafe : Bool) (b : Nat) : Str :=
  if alwaysSafeB b then [Char.ofNat b]
  else if spaceSafe && b == 0x20 then [chSpace]
  else [chPercent, hexUpper (b / 16), hexUpper (b % 16)]

/-- `urllib.parse.quote(s, safe)` for `safe ∈ {'', ' '}` (the only values
reached from `urlencode(..., quote_via=quote_plus)`): UTF-8-encode, then
percent-escape every unsafe byte with uppercase hex.  (`quote_from_bytes`'s
all-bytes-safe early return produces the same value and is not modelled as a
separate branch.) -/
def quoteSafe (spaceSafe : Bool) (s : Str) : Str :=
  ((utf8Encode s).map (quoteByte spaceSafe)).flatten

/-- `urllib.parse.quote_plus(s, safe='')` as called by `urlencode`. -/
def quote_plus (s : Str) : Str :=
  if s.contains chSpace = false then quoteSafe false s
  else pyReplaceChar chSpace chPlus (quoteSafe true s)

def isHexC (c : Char) : Bool :=
  isAsciiDigitC c || (0x41 ≤ c.toNat && c.toNat ≤ 0x46) ||
    (0x61 ≤ c.toNat && c.toNat ≤ 0x66)

def hexValC (c : Char) : Nat :=
  if isAsciiDigitC c then c.toNat - 0x30
  else if c.toNat ≤ 0x46 then c.toNat - 0x37
  else c.toNat - 0x57

/-- Tokenizer state for `unquote`: `p0` outside an escape, `pPct` right
after a `%`, `pHex c1` after `%` and one hex digit `c1`. -/
inductive TokState
  | p0
  | pPct
  | pHex (c1 : Char)

/-- Processing of one character from outside an escape. -/
def tokStart (c : Char) : List (Nat ⊕ Char) × TokState :=
  if 0x7F < c.toNat then ([Sum.inr c], .p0)
  else if c = chPercent then ([], .pPct)
  else ([Sum.inl c.toNat], .p0)

/-- One tokenizer step.  A failed `%XX` escape keeps `%` (and any already
seen hex digit) literally and reprocesses the offending character — exactly
the effect of `unquote_to_bytes`'s `split('%')` loop. -/
def tokStep : TokState → Char → List (Nat ⊕ Char) × TokState
  | .p0, c => tokStart c
  | .pPct, c =>
    if isHexC c then ([], .pHex c)
    else
      match tokStart c with
      | (out, st) => (Sum.inl 0x25 :: out, st)
  | .pHex c1, c =>
    if isHexC c then ([Sum.inl (hexValC c1 * 16 + hexValC c)], .p0)
    else
      match tokStart c with
      | (out, st) => (Sum.inl 0x25 :: Sum.inl c1.toNat :: out, st)

/-- Pending literal output at end of input (a trailing incomplete escape). -/
def tokFlush : TokState → List (Nat ⊕ Char)
  | .p0 => []
  | .pPct => [Sum.inl 0x25]
  | .pHex c1 => [Sum.inl 0x25, Sum.inl c1.toNat]

def unquoteTokensGo : TokState → Str → List (Nat ⊕ Char)
  | st, [] => tokFlush st
  | st, c :: rest =>
    match tokStep st c with
    | (out, st2) => out ++ unquoteTokensGo st2 rest

/-- Tokenizer for `unquote`: ASCII characters become bytes, with `%XX`
escapes decoded and invalid escapes kept literally (as in
`unquote_to_bytes`); non-ASCII characters pass through as characters.  This
mirrors `unquote`'s split of its input into ASCII/non-ASCII chunks
(`_asciire`) with `unquote_to_bytes` applied to the ASCII chunks. -/
def unquoteTokens (s : Str) : List (Nat ⊕ Char) := unquoteTokensGo .p0 s

/-- Decode a token stream: maximal byte runs are UTF-8-decoded with
`errors='replace'`; non-ASCII characters pass through unchanged. -/
def decodeTokens : List (Nat ⊕ Char) → List Nat → Str
  | [], acc => utf8Decode acc.reverse
  | Sum.inl b :: ts, acc => decodeTokens ts (b :: acc)
  | Sum.inr c :: ts, acc => utf8Decode acc.reverse ++ c :: decodeTokens ts []

/-- `urllib.parse.unquote(s, encoding='utf-8', errors='replace')` (the
`'%' not in string` early return yields the same value and is not modelled
as a separate branch). -/
def unquote (s : Str) : Str := decodeTokens (unquoteTokens s) []

/-- `unquote(s.replace('+', ' '))`, the combination `parse_qsl` applies to
each name and value. -/
def unqPlus (s : Str) : Str := unquote (pyReplaceChar chPlus chSpace s)

/-! ## `urllib.parse.parse_qs` / `urlencode` -/

/-- One `name=value` field of `parse_qsl` (with `keep_blank_values=True`,
`strict_parsing=False`): empty fields are skipped; a field without `=` gets
a blank value appended; names and values go through `.replace('+', ' ')`
then `unquote`. -/
def qslPair (nv : Str) : Option (Str × Str) :=
  if nv = [] then none
  else
    match findSplit chEq nv with
    | some (n, v) => some (unqPlus n, unqPlus v)
    | none => some (unqPlus nv, unqPlus [])

/-- `urllib.parse.parse_qsl(qs, keep_blank_values=True)` (default separator
`'&'`; `qs.split('&') if qs else []`). -/
def parse_qsl (qs : Str) : List (Str × Str) :=
  (if qs = [] then [] else pySplitSep chAmp qs).filterMap qslPair

/-- Python-dict insertion semantics used by `parse_qs`'s loop: append the
value to an existing key's list, else append a new key at the end. -/
def dictAppend : List (Str × List Str) → Str → Str → List (Str × List Str)
  | [], k, v => [(k, [v])]
  | (k0, vs) :: rest, k, v =>
    if k0 = k then (k0, vs ++ [v]) :: rest else (k0, vs) :: dictAppend rest k v

/-- `urllib.parse.parse_qs(qs, keep_blank_values=True)`, as an ordered
association list (Python dicts preserve insertion order). -/
def parse_qs (qs : Str) : List (Str × List Str) :=
  (parse_qsl qs).foldl (fun d kv => dictAppend d kv.1 kv.2) []

/-- `urllib.parse.urlencode(d, doseq=True)` on a dict of lists of strings:
one `quote_plus(k)=quote_plus(v)` field per element, joined with `&`. -/
def urlencode (d : List (Str × List Str)) : Str :=
  joinSep chAmp
    ((d.map fun kv => kv.2.map fun v => quote_plus kv.1 ++ chEq :: quote_plus v).flatten)

/-- `_WHATWG_C0_CONTROL_OR_SPACE`. -/
def isC0OrSpace (c : Char) : Bool := c.toNat ≤ 0x20

/-- `_UNSAFE_URL_BYTES_TO_REMOVE` = tab, CR, LF. -/
def isUnsafeURLByte (c : Char) : Bool := c = chTab || c = chCR || c = chLF

/-- `scheme_chars`: letters, digits, `+`, `-`, `.`. -/
def schemeChar (c : Char) : Bool :=
  isAsciiAlphaC c || isAsciiDigitC c || c = chPlus || c = Char.ofNat 0x2D ||
    c = Char.ofNat 0x2E

def isNetlocDelim (c : Char) : Bool := c = chSlash || c = chQmark || c = chHash

structure SplitResult where
  scheme : Str
  netloc : Str
  path : Str
  query : Str
  fragment : Str

structure ParseResult where
  scheme : Str
  netloc : Str
  path : Str
  params : Str
  query : Str
  fragment : Str

/-- Scheme recognition of `urlsplit`: `i = url.find(':')` with `i > 0`,
`url[0]` ASCII alphabetic, and every character of `url[:i]` in
`scheme_chars`; on success the scheme is lowercased and split off,
otherwise the url is left whole. -/
def schemeSplit (url : Str) : Str × Str :=
  match findSplit chColon url with
  | some (pre, post) =>
    if pre ≠ [] ∧ isAsciiAlphaC pre.headI ∧ pre.all schemeChar then (pyLower pre, post)
    else ([], url)
  | none => ([], url)

/-- `s.partition(c)[2]` (empty when `c` does not occur). -/
def afterFirst (c : Char) (s : Str) : Str :=
  match findSplit c s with
  | some (_, post) => post
  | none => []

/-- `s.partition(c)[0]` (all of `s` when `c` does not occur). -/
def beforeFirst (c : Char) (s : Str) : Str :=
  match findSplit c s with
  | some (pre, _) => pre
  | none => s

/-- `_checknetloc`: raises for a non-ASCII netloc whose NFKC normalization
changes it and introduces a structural delimiter.  NFKC normalization is a
parameter (`nfkc`): it never runs on ASCII netlocs, and every theorem below
holds for each choice of `nfkc`. -/
def checknetlocRaises (nfkc : Str → Str) (netloc : Str) : Bool :=
  if netloc = [] ∨ netloc.all (fun c => c.toNat < 0x80) then false
  else
    let n := netloc.filter fun c =>
      !(c = Char.ofNat 0x40 || c = chColon || c = chHash || c = chQmark)
    let normalized := nfkc n
    if n = normalized then false
    else [chSlash, chQmark, chHash, Char.ofNat 0x40, chColon].any fun c =>
      normalized.contains c

/-- The `url[:2] == '//'` step of `urlsplit`: `_splitnetloc(url, 2)` when
the prefix matches, else no netloc.  (The bracket and `_checknetloc` checks
are applied by `urlsplitCore` unconditionally; outside the `//` branch the
netloc is empty and they are vacuous, as in the source.) -/
def netlocStage (urlA : Str) : Str × Str :=
  if urlA.take 2 = [chSlash, chSlash] then
    ((urlA.drop 2).takeWhile (fun c => !isNetlocDelim c),
      (urlA.drop 2).dropWhile (fun c => !isNetlocDelim c))
  else ([], urlA)

/-- `if '#' in url: url, _, fragment = url.partition('#')`. -/
def fragStage (urlB : Str) : Str × Str :=
  match findSplit chHash urlB with
  | some (u, f) => (u, f)
  | none => (urlB, [])

/-- `if '?' in url: url, query = url.split('?', 1)`. -/
def queryStage (urlC : Str) : Str × Str :=
  match findSplit chQmark urlC with
  | some (u, q) => (u, q)
  | none => (urlC, [])

/-- Unbalanced-bracket test on the netloc (`raise ValueError` path). -/
def bracketsBad (netloc : Str) : Bool :=
  (netloc.contains chLBrack && !netloc.contains chRBrack) ||
    (netloc.contains chRBrack && !netloc.contains chLBrack)

/-- The `_check_bracketed_host` path: both brackets present but the
bracketed host is rejected by `brOk`. -/
def brHostBad (brOk : Str → Bool) (netloc : Str) : Bool :=
  netloc.contains chLBrack && netloc.contains chRBrack &&
    !(brOk (beforeFirst chRBrack (afterFirst chLBrack netloc)))

/-- `urlsplit` after the input-cleaning passes. -/
def urlsplitCore (nfkc : Str → Str) (brOk : Str → Bool) (url2 : Str) :
    Option SplitResult :=
  let sres := schemeSplit url2
  let nres := netlocStage sres.2
  if bracketsBad nres.1 then none
  else if brHostBad brOk nres.1 then none
  else
    let fr := fragStage nres.2
    let qr := queryStage fr.1
    if checknetlocRaises nfkc nres.1 then none
    else some ⟨sres.1, nres.1, qr.1, qr.2, fr.2⟩

/-- `urllib.parse.urlsplit(url)` (CPython 3.12, `allow_fragments=True`),
with the two `ValueError` paths (unbalanced or invalid bracketed IPv6 host,
and `_checknetloc`) returning `none`.  `_check_bracketed_host` — which
validates the bracketed host with the `ipaddress` module — is a parameter
`brOk`; every theorem below holds for each choice.  The internal parse
cache is semantically transparent and not modelled. -/
def urlsplit (nfkc : Str → Str) (brOk : Str → Bool) (url0 : Str) :
    Option SplitResult :=
  urlsplitCore nfkc brOk
    ((url0.dropWhile isC0OrSpace).filter fun c => !isUnsafeURLByte c)

/-- `_splitparams`: split at the first `;` at or after the last `/`. -/
def splitparams (p : Str) : Str × Str :=
  match splitLast chSlash p with
  | some (a, b) =>
    match findSplit chSemi b with
    | some (b1, b2) => (a ++ chSlash :: b1, b2)
    | none => (p, [])
  | none =>
    match findSplit chSemi p with
    | some (p1, p2) => (p1, p2)
    | none => (p, [])

/-- `urllib.parse.urlparse(url)`: `urlsplit` plus the params split (applied
only when the path contains `;`). -/
def urlparse (nfkc : Str → Str) (brOk : Str → Bool) (u : Str) :
    Option ParseResult :=
  (urlsplit nfkc brOk u).map fun s =>
    if s.path.contains chSemi then
      let pp := splitparams s.path
      ⟨s.scheme, s.netloc, pp.1, pp.2, s.query, s.fragment⟩
    else ⟨s.scheme, s.netloc, s.path, [], s.query, s.fragment⟩

/-- `urllib.parse.uses_netloc` (CPython 3.12). -/
def uses_netloc : List Str :=
  ["".toList, "ftp".toList, "http".toList, "gopher".toList, "nntp".toList,
    "telnet".toList, "imap".toList, "wais".toList, "file".toList, "mms".toList,
    "https".toList, "shttp".toList, "snews".toList, "prospero".toList,
    "rtsp".toList, "rtsps".toList, "rtspu".toList, "rsync".toList,
    "svn".toList, "svn+ssh".toList, "sftp".toList, "nfs".toList,
    "git".toList, "git+ssh".toList, "ws".toList, "wss".toList]

/-- `urllib.parse.urlunsplit` (CPython ≥ 3.11.4 / 3.12): the `//` part is
reassembled `if netloc or (scheme and scheme in uses_netloc and url[:2] !=
'//')`. -/
def urlunsplit (scheme netloc path query fragment : Str) : Str :=
  let url1 :=
    if netloc ≠ [] ∨ (scheme ≠ [] ∧ uses_netloc.contains scheme ∧
        ¬ path.take 2 = [chSlash, chSlash]) then
      chSlash :: chSlash ::
        (netloc ++ (if path ≠ [] ∧ path.headI ≠ chSlash then chSlash :: path else path))
    else path
  let url2 := if scheme ≠ [] then scheme ++ chColon :: url1 else url1
  let url3 := if query ≠ [] then url2 ++ chQmark :: query else url2
  if fragment ≠ [] then url3 ++ chHash :: fragment else url3

/-- `urllib.parse.urlunparse`. -/
def urlunparse (scheme netloc path params query fragment : Str) : Str :=
  urlunsplit scheme netloc (if params ≠ [] then path ++ chSemi :: params else path)
    query fragment

/-! ## `remove_utm_parameters` (src/extractor/url_utils.py) -/

def utmStr : Str := "utm_".toList

def containsUtm (s : Str) : Bool := containsSub utmStr s

/-- `k.lower().startswith('utm_')`. -/
def isUtmKey (k : Str) : Bool := utmStr.isPrefixOf (pyLower k)

/-- `remove_utm_parameters(url)` from src/extractor/url_utils.py.  The
`try/except Exception` returns the input unchanged when `urlparse` raises;
no other operation in the body raises (encoding a lone surrogate would, but
such strings are not representable as `List Char`). -/
def remove_utm_parameters (nfkc : Str → Str) (brOk : Str → Bool) (url : Str) : Str :=
  if url = [] then url
  else
    match urlparse nfkc brOk url with
    | none => url
    | some parsed =>
      let query_params := parse_qs parsed.query
      let cleaned_params := query_params.filter fun kv => !isUtmKey kv.1
      let cleaned_query := urlencode cleaned_params
      let cleaned_fragment :=
        if parsed.fragment ≠ [] ∧ containsUtm (pyLower parsed.fragment) then
          let fragment_params := parse_qs parsed.fragment
          let cleaned_fragment_params := fragment_params.filter fun kv => !isUtmKey kv.1
          if cleaned_fragment_params ≠ [] then urlencode cleaned_fragment_params else []
        else parsed.fragment
      urlunparse parsed.scheme parsed.netloc parsed.path parsed.params
        cleaned_query cleaned_fragment

/-! ## `URLToMarkdownConverter.fetch_url` (src/extractor/url_to_markdown.py) -/

/-- Outcome of `self.session.get(...)`: a response (with final status,
`Content-Type` header, final URL after redirects, body text), or one of the
exception classes the code catches. -/
inductive FetchOutcome
  | response (status : Int) (contentType : Str) (respUrl : Str) (text : Str)
  | timeout
  | connectionError (msg : Str)
  | requestError (msg : Str)
  | otherException (msg : Str)

/-- The `metadata` dict built by `fetch_url`. -/
structure FetchMeta where
  original_url : Str
  final_url : Str
  status_code : Option Int
  error : Option Str

/-- Python `str(i)` for an int, as used by f-strings. -/
def intStr (i : Int) : Str := (toString i).toList

/-- `fetch_url(url)`: returns `(html_content, final_url, metadata)`.  The
function catches every exception class, so it is total over the outcome
type — it never raises across its public boundary. -/
def fetch_url (nfkc : Str → Str) (brOk : Str → Bool) (url : Str)
    (outcome : FetchOutcome) : Option Str × Str × FetchMeta :=
  let m0 : FetchMeta := ⟨url, url, none, none⟩
  match outcome with
  | .response status ct respUrl text =>
    let m1 := { m0 with status_code := some status }
    let cleaned := remove_utm_parameters nfkc brOk respUrl
    let m2 := { m1 with final_url := cleaned }
    if status ≠ 200 then
      (none, cleaned, { m2 with error := some ("HTTP ".toList ++ intStr status) })
    else
      let content_type := pyLower ct
      if containsSub "text/html".toList content_type = false then
        (none, cleaned,
          { m2 with error := some ("Not HTML content: ".toList ++ content_type) })
      else (some text, cleaned, m2)
  | .timeout => (none, url, { m0 with error := some "Request timeout".toList })
  | .connectionError msg =>
    (none, url, { m0 with error := some ("Connection error: ".toList ++ msg) })
  | .requestError msg =>
    (none, url, { m0 with error := some ("Request error: ".toList ++ msg) })
  | .otherException msg =>
    (none, url, { m0 with error := some ("Unexpected error: ".toList ++ msg) })

/-! ## `calculate_quality_score` (src/database/importer.py, lines 260-294) -/

/-- Truthiness-guarded range test `status_code and lo <= status_code < hi`
(`None` and `0` are falsy). -/
def truthyInRange (status : Option Int) (lo hi : Int) : Bool :=
  match status with
  | some c => decide (c ≠ 0) && decide (lo ≤ c) && decide (c < hi)
  | none => false

/-- `calculate_quality_score(status_code, redirect_count, has_content,
has_markdown)`, translated line by line. -/
def calculate_quality_score (status_code : Option Int) (redirect_count : Int)
    (has_content has_markdown : Bool) : Int :=
  let score : Int := 0
  let score := if status_code = some 200 then score + 40
    else if truthyInRange status_code 200 300 then score + 30
    else if truthyInRange status_code 400 500 then score + 10
    else score
  let score := if redirect_count = 0 then score + 10
    else if redirect_count ≤ 3 then score + 5
    else score
  let score := if has_content then score + 20 else score
  let score := if has_markdown then score + 20 else score
  min 100 score

/-- Plain (truthiness-free) range test on an optional status code, as the
spec's rubric words it. -/
def inRangeOpt (status : Option Int) (lo hi : Int) : Bool :=
  match status with
  | some c => decide (lo ≤ c) && decide (c < hi)
  | none => false

/-- The §4.5 rubric exactly as claim C1 words it (spec-side definition for
the refinement comparison): redirect bonus `+5` only for `1 ≤ n ≤ 3`. -/
def qualityScoreRubricC1 (status_code : Option Int) (redirect_count : Int)
    (has_content has_markdown : Bool) : Int :=
  let a : Int := if status_code = some 200 then 40
    else if inRangeOpt status_code 200 300 then 30
    else if inRangeOpt status_code 400 500 then 10
    else 0
  let b : Int := if redirect_count = 0 then 10
    else if 1 ≤ redirect_count ∧ redirect_count ≤ 3 then 5
    else 0
  let c : Int := if has_content then 20 else 0
  let d : Int := if has_markdown then 20 else 0
  min (a + b + c + d) 100

/-- The rubric amended the way the code forces: the `+5` redirect bonus
applies to every nonzero `redirect_count ≤ 3`, negatives included. -/
def qualityScoreRubricAmended (status_code : Option Int) (redirect_count : Int)
    (has_content has_markdown : Bool) : Int :=
  let a : Int := if status_code = some 200 then 40
    else if inRangeOpt status_code 200 300 then 30
    else if inRangeOpt status_code 400 500 then 10
    else 0
  let b : Int := if redirect_count = 0 then 10
    else if redirect_count ≤ 3 then 5
    else 0
  let c : Int := if has_content then 20 else 0
  let d : Int := if has_markdown then 20 else 0
  min (a + b + c + d) 100

/-! ## `URLCrawler.crawl_url` statistics (src/scripts/crawler/url_crawler.py) -/

/-- Outcome of one crawled job: final response (status and redirect chain
length) or one of the caught exception classes. -/
inductive CrawlOutcome
  | response (status : Int) (redirects : Nat)
  | timeout
  | connectionError (msg : Str)
  | requestError (msg : Str)
  | otherException (msg : Str)

structure CrawlStats where
  total_urls : Nat
  processed : Nat
  successful : Nat
  redirected : Nat
  errors_4xx : Nat
  errors_5xx : Nat
  timeouts : Nat
  connection_errors : Nat
  other_errors : Nat

def initStats : CrawlStats := ⟨0, 0, 0, 0, 0, 0, 0, 0, 0⟩

/-- The `self.stats` effect of one `crawl_url` call (lines 117-200),
faithful to its branch structure; the per-job result record does not feed
back into the counters. -/
def crawl_url_stats (s : CrawlStats) (o : CrawlOutcome) : CrawlStats :=
  let s1 :=
    match o with
    | .response status redirects =>
      let sA := if redirects > 0 then { s with redirected := s.redirected + 1 } else s
      if 200 ≤ status ∧ status < 300 then { sA with successful := sA.successful + 1 }
      else if 400 ≤ status ∧ status < 500 then { sA with errors_4xx := sA.errors_4xx + 1 }
      else if 500 ≤ status ∧ status < 600 then { sA with errors_5xx := sA.errors_5xx + 1 }
      else sA
    | .timeout => { s with timeouts := s.timeouts + 1 }
    | .connectionError _ => { s with connection_errors := s.connection_errors + 1 }
    | .requestError _ => { s with other_errors := s.other_errors + 1 }
    | .otherException _ => { s with other_errors := s.other_errors + 1 }
  { s1 with processed := s1.processed + 1 }

/-- Counter state after a run over the given job outcomes (each job's
`crawl_url` updates the shared stats exactly once; the worker pool
serializes each increment, so the run is the fold of the per-job effect). -/
def runStats (outcomes : List CrawlOutcome) : CrawlStats :=
  outcomes.foldl crawl_url_stats initStats

/-- Sum of the per-outcome-kind counters named by the claim. -/
def kindSum (s : CrawlStats) : Nat :=
  s.successful + s.errors_4xx + s.errors_5xx + s.timeouts +
    s.connection_errors + s.other_errors

/-- Outcomes whose status the classifier recognizes: any exception, or a
response with status in `[200, 300) ∪ [400, 600)`. -/
def classifiedOutcome : CrawlOutcome → Prop
  | .response status _ => (200 ≤ status ∧ status < 300) ∨ (400 ≤ status ∧ status < 600)
  | _ => True

/-! ## `URLToMarkdownConverter.extract_content`
(src/extractor/url_to_markdown.py, lines 243-346) -/

/-- Python `str.strip()` whitespace (`str.isspace` set). -/
def pyIsSpace (c : Char) : Bool :=
  let n := c.toNat
  (0x09 ≤ n && n ≤ 0x0D) || n == 0x20 || (0x1C ≤ n && n ≤ 0x1F) || n == 0x85 ||
    n == 0xA0 || n == 0x1680 || (0x2000 ≤ n && n ≤ 0x200A) || n == 0x2028 ||
    n == 0x2029 || n == 0x202F || n == 0x205F || n == 0x3000

/-- Python `s.strip()`. -/
def pyStrip (s : Str) : Str :=
  ((s.dropWhile pyIsSpace).reverse.dropWhile pyIsSpace).reverse

/-- `first_para[:300] + ('...' if len(first_para) > 300 else '')` applied to
the stripped text of the first paragraph. -/
def excerptOf (t : Str) : Str :=
  let first_para := pyStrip t
  first_para.take 300 ++ (if 300 < first_para.length then "...".toList else [])

/-- The result dict of `extract_content`; `δ` is the type of published-date
values (produced by trafilatura metadata or the HTML meta-tag scan; the
function only tests them for truthiness). -/
structure ExtractResult (δ : Type) where
  title : Option Str
  content : Option Str
  excerpt : Option Str
  author : Option Str
  published_date : Option δ
  method : Str
  success : Bool

/-- Outcome of the trafilatura branch's library calls.
`raised`: `trafilatura.extract` (or `extract_metadata`) raised before any
`result` field was assigned.  `noContent`: `extract` returned a falsy
value (no exception).  `content meta reparse`: `extract` returned truthy
XML; `meta` is `extract_metadata`'s document (`none` when falsy) with its
`title`/`author`/`date` fields; `reparse` is the `lxml` re-serialization —
`none` when `fromstring`/`tostring` raised (after the metadata fields were
already assigned), else the cleaned HTML together with the first `<p>`'s
text content (`none` when the document has no `<p>`). -/
inductive TrafOutcome (δ : Type)
  | raised
  | noContent
  | content (meta : Option (Option Str × Option Str × Option δ))
      (reparse : Option (Str × Option Str))

/-- Outcome of the readability branch's library calls.
`raised`: `Document(...)`, `.title()` or `.summary()` raised before any
assignment.  `summary title cleanHtml paras`: `summary()` returned
`cleanHtml` (possibly empty, i.e. falsy); `paras` is the excerpt step —
`none` when `html.fromstring(clean_html)` raised (after the success fields
were assigned), else `some` of the first `<p>`'s text (`none` inside when
the document has no `<p>`). -/
inductive ReadOutcome
  | raised
  | summary (title : Str) (cleanHtml : Str) (paras : Option (Option Str))

/-- Final fallback of `extract_content`: original HTML as content,
`method='raw'`, `success=False` (other fields keep their current values). -/
def rawStage (δ : Type) (html_content : Str) (r : ExtractResult δ) : ExtractResult δ :=
  { r with content := some html_content, method := "raw".toList, success := false }

/-- The readability block of `extract_content` (lines 311-340), entered
with the current `result` value `r`, followed by the raw fallback on
fall-through. -/
def readabilityStage (δ : Type) (rOut : ReadOutcome) (dateFromHtml : Option δ)
    (html_content : Str) (method : Str) (r : ExtractResult δ) : ExtractResult δ :=
  if method = "auto".toList ∨ method = "readability".toList then
    match rOut with
    | .raised =>
      if method = "readability".toList then r else rawStage δ html_content r
    | .summary title cleanHtml paras =>
      if cleanHtml = [] then rawStage δ html_content r
      else
        let r1 := { r with title := some title, content := some cleanHtml,
                           method := "readability".toList, success := true }
        let r2 := if r1.published_date.isNone then
            { r1 with published_date := dateFromHtml }
          else r1
        match paras with
        | none =>
          if method = "readability".toList then r2 else rawStage δ html_content r2
        | some (some t) => { r2 with excerpt := some (excerptOf t) }
        | some none => r2
  else rawStage δ html_content r

/-- `extract_content(html_content, url, method)`, parameterized by the
outcomes of the extraction libraries (`tOut`, `rOut`) and of
`extract_published_date_from_html` (`dateFromHtml`; that helper catches all
its exceptions and is total). -/
def extract_content (δ : Type) (tOut : TrafOutcome δ) (rOut : ReadOutcome)
    (dateFromHtml : Option δ) (html_content url : Str) (method : Str) :
    ExtractResult δ :=
  let result0 : ExtractResult δ := ⟨none, none, none, none, none, method, false⟩
  if method = "auto".toList ∨ method = "trafilatura".toList then
    match tOut with
    | .raised =>
      if method = "trafilatura".toList then result0
      else readabilityStage δ rOut dateFromHtml html_content method result0
    | .noContent =>
      readabilityStage δ rOut dateFromHtml html_content method result0
    | .content meta reparse =>
      let r1 :=
        match meta with
        | some (t, a, d) => { result0 with title := t, author := a, published_date := d }
        | none => result0
      let r2 := if r1.published_date.isNone then
          { r1 with published_date := dateFromHtml }
        else r1
      match reparse with
      | none =>
        if method = "trafilatura".toList then r2
        else readabilityStage δ rOut dateFromHtml html_content method r2
      | some (cleanHtml, firstPara) =>
        let r3 := { r2 with content := some cleanHtml,
                            method := "trafilatura".toList, success := true }
        if cleanHtml ≠ [] then
          match firstPara with
          | some t => { r3 with excerpt := some (excerptOf t) }
          | none => r3
        else r3
  else readabilityStage δ rOut dateFromHtml html_content method result0

/-- The trafilatura strategy fails to yield content: it raised, returned
nothing, or its output could not be re-serialized. -/
def trafFails (δ : Type) : TrafOutcome δ → Prop
  | .raised => True
  | .noContent => True
  | .content _ none => True
  | .content _ (some _) => False

/-- The readability strategy fails to yield content: it raised, returned an
empty summary, or the excerpt step raised. -/
def readFails : ReadOutcome → Prop
  | .raised => True
  | .summary _ _ none => True
  | .summary _ cleanHtml (some _) => cleanHtml = []

/-! ## `escape_yaml_value` and the `convert` tags block
(src/extractor/url_to_markdown.py, lines 106-150 and 501-513) -/

/-- The YAML special characters whose presence forces quoting:
`: # | > & * ! % @ \x60 [ ] \x7b \x7d \\`. -/
def yamlSpecialChars : Str :=
  [chColon, chHash, Char.ofNat 0x7C, Char.ofNat 0x3E, chAmp, Char.ofNat 0x2A,
   Char.ofNat 0x21, chPercent, Char.ofNat 0x40, Char.ofNat 0x60, chLBrack,
   chRBrack, Char.ofNat 0x7B, Char.ofNat 0x7D, Char.ofNat 0x5C]

/-- Characters a value must not start with unquoted. -/
def yamlStartChars : Str :=
  [Char.ofNat 0x2D, chQmark, chColon, Char.ofNat 0x2C, chLBrack, chRBrack,
   Char.ofNat 0x7B, Char.ofNat 0x7D, chAmp, Char.ofNat 0x2A, Char.ofNat 0x21,
   chPercent, Char.ofNat 0x40, Char.ofNat 0x60, Char.ofNat 0x7C,
   Char.ofNat 0x3E, Char.ofNat 0x27, Char.ofNat 0x22]

/-- Reserved YAML literals (compared lowercased). -/
def yamlReserved : List Str :=
  ["true".toList, "false".toList, "null".toList, "yes".toList, "no".toList,
   "on".toList, "off".toList]

/-- One character of `value.replace('\\', '\\\\').replace('"', '\\"')` (the
two sequential replaces act on disjoint characters, so they equal this
single pass). -/
def yamlEscapeChar (c : Char) : Str :=
  if c = Char.ofNat 0x5C then [Char.ofNat 0x5C, Char.ofNat 0x5C]
  else if c = Char.ofNat 0x22 then [Char.ofNat 0x5C, Char.ofNat 0x22]
  else [c]

/-- `escape_yaml_value(value)` (lines 106-150). -/
def escape_yaml_value (value : Str) : Str :=
  if value = [] then [Char.ofNat 0x22, Char.ofNat 0x22]
  else
    let value_str := pyStrip value
    if value_str = [] then [Char.ofNat 0x22, Char.ofNat 0x22]
    else
      let needs_quotes :=
        value_str.any (fun c => yamlSpecialChars.contains c) ||
        (match value_str with
          | c :: _ => yamlStartChars.contains c
          | [] => false) ||
        yamlReserved.contains (pyLower value_str) ||
        value_str.contains chLF
      if needs_quotes then
        Char.ofNat 0x22 :: ((value_str.map yamlEscapeChar).flatten ++ [Char.ofNat 0x22])
      else value_str

/-- The tags block of `convert`'s frontmatter (lines 501-513): the line
`tags:` followed by one `  - <escaped>` entry per truthy tag that remains
non-blank after stripping, or by the single literal entry `  - clippings`
when the caller-supplied list is empty. -/
def convertTagsLines (tags : List Str) : List Str :=
  "tags:".toList ::
    (if tags ≠ [] then
      tags.filterMap fun tag =>
        if tag ≠ [] then
          let tag_str := pyStrip tag
          if tag_str ≠ [] then some ("  - ".toList ++ escape_yaml_value tag_str)
          else none
        else none
    else ["  - clippings".toList])

/-! ## Stability of `urlsplit ∘ urlunsplit` on parse results -/

/-- Shape of the tail that follows the path in a split URL: empty, or led
by the query/fragment/params delimiter (none of which can begin or extend a
scheme). -/
def tShape : Str → Prop
  | [] => True
  | c :: _ => c = chQmark ∨ c = chHash ∨ c = chSemi

/-- The `?query`/`#fragment` tail `urlunsplit` appends. -/
def tailOf (q f : Str) : Str :=
  (if q ≠ [] then chQmark :: q else []) ++ (if f ≠ [] then chHash :: f else [])

/-- Shape of the tail `urlunsplit` appends after the path: empty or led by
the query/fragment delimiter (both of which stop the netloc scan). -/
def tShapeQF : Str → Prop
  | [] => True
  | c :: _ => c = chQmark ∨ c = chHash

/-! ## The params layer of `urlparse` / `urlunparse` -/

theorem findSplit_eq_none {c : Char} {s : Str} (h : c ∉ s) :
    findSplit c s = none := by
  induction s with
  | nil => rfl
  | cons d rest ih =>
    simp only [List.mem_cons, not_or] at h
    have hdc : d ≠ c := fun hh => h.1 hh.symm
    simp [findSplit, hdc, ih h.2]

theorem findSplit_append {c : Char} {a b : Str} (h : c ∉ a) :
    findSplit c (a ++ c :: b) = some (a, b) := by
  induction a with
  | nil => simp [findSplit]
  | cons d rest ih =>
    simp only [List.mem_cons, not_or] at h
    have hdc : d ≠ c := fun hh => h.1 hh.symm
    simp [findSplit, hdc, ih h.2]

theorem findSplit_spec {c : Char} {s pre post : Str}
    (h : findSplit c s = some (pre, post)) :
    s = pre ++ c :: post ∧ c ∉ pre := by
  induction s generalizing pre post with
  | nil => simp [findSplit] at h
  | cons d rest ih =>
    simp only [findSplit] at h
    by_cases hdc : d = c
    · simp only [if_pos hdc] at h
      obtain ⟨h1, h2⟩ := Prod.mk.injEq .. ▸ Option.some.injEq .. ▸ h
      subst hdc
      cases h1
      cases h2
      simp
    · simp only [if_neg hdc] at h
      cases hfs : findSplit c rest with
      | none => rw [hfs] at h; cases h
      | some pr =>
        rw [hfs] at h
        obtain ⟨pre', post'⟩ := pr
        obtain ⟨h1, h2⟩ := Prod.mk.injEq .. ▸ Option.some.injEq .. ▸ h
        obtain ⟨hs, hc⟩ := ih hfs
        subst h1
        subst h2
        constructor
        · simp [hs]
        · simp only [List.mem_cons, not_or]
          exact ⟨fun hh => hdc hh.symm, hc⟩

theorem splitLast_eq_none {c : Char} {s : Str} (h : c ∉ s) :
    splitLast c s = none := by
  unfold splitLast
  rw [findSplit_eq_none (by simpa using h)]

theorem char_ne_of_toNat_ne {a b : Char} (h : a.toNat ≠ b.toNat) : a ≠ b :=
  fun he => h (he ▸ rfl)

theorem takeWhile_head_or_nil (p : Char → Bool) (l : Str) :
    ∀ c ∈ l.takeWhile p, p c := fun c hc => List.mem_takeWhile_imp hc

/-- `schemeSplit` characterized: failure leaves the url whole with an empty
scheme; success returns a nonempty lowercased scheme. -/
theorem schemeSplit_cases (url : Str) :
    schemeSplit url = ([], url) ∨
    (∃ pre post, findSplit chColon url = some (pre, post) ∧ pre ≠ [] ∧
      isAsciiAlphaC pre.headI = true ∧ pre.all schemeChar = true ∧
      schemeSplit url = (pyLower pre, post)) := by
  unfold schemeSplit
  cases hfs : findSplit chColon url with
  | none => exact Or.inl rfl
  | some pr =>
    obtain ⟨pre, post⟩ := pr
    by_cases hc : pre ≠ [] ∧ isAsciiAlphaC pre.headI = true ∧ pre.all schemeChar = true
    · right
      refine ⟨pre, post, rfl, hc.1, hc.2.1, hc.2.2, ?_⟩
      show (if pre ≠ [] ∧ isAsciiAlphaC pre.headI = true ∧ pre.all schemeChar = true
        then (pyLower pre, post) else ([], url)) = (pyLower pre, post)
      rw [if_pos hc]
    · left
      show (if pre ≠ [] ∧ isAsciiAlphaC pre.headI = true ∧ pre.all schemeChar = true
        then (pyLower pre, post) else ([], url)) = ([], url)
      rw [if_neg hc]

theorem pyLower_ne_nil {s : Str} (h : s ≠ []) : pyLower s ≠ [] := by
  cases s with
  | nil => exact absurd rfl h
  | cons c rest => simp [pyLower]

/-- If the scheme came out empty, the scheme test failed (it cannot have
succeeded, since success produces a nonempty scheme). -/
theorem schemeSplit_fst_nil {url : Str} (h : (schemeSplit url).1 = []) :
    schemeSplit url = ([], url) := by
  rcases schemeSplit_cases url with hc | ⟨pre, post, _, hne, _, _, heq⟩
  · exact hc
  · rw [heq] at h
    exact absurd h (pyLower_ne_nil hne)

theorem headI_mem {l : Str} (h : l ≠ []) : l.headI ∈ l := by
  cases l with
  | nil => exact absurd rfl h
  | cons c t => exact List.mem_cons_self c t

theorem findSplit_none_not_mem {c : Char} {s : Str} (h : findSplit c s = none) :
    c ∉ s := by
  induction s with
  | nil => simp
  | cons d rest ih =>
    simp only [findSplit] at h
    by_cases hdc : d = c
    · rw [if_pos hdc] at h
      cases h
    · rw [if_neg hdc] at h
      cases hfs : findSplit c rest with
      | none =>
        simp only [List.mem_cons, not_or]
        exact ⟨fun hh => hdc hh.symm, ih hfs⟩
      | some pr =>
        obtain ⟨a, b⟩ := pr
        rw [hfs] at h
        exact Option.noConfusion h

theorem findSplit_isSome_of_mem {c : Char} {s : Str} (h : c ∈ s) :
    ∃ pr, findSplit c s = some pr := by
  cases hfs : findSplit c s with
  | some pr => exact ⟨pr, rfl⟩
  | none => exact absurd h (findSplit_none_not_mem hfs)

theorem schemeSplit_none_eq {u : Str} (hfs : findSplit chColon u = none) :
    schemeSplit u = ([], u) := by
  unfold schemeSplit
  rw [hfs]

theorem schemeSplit_some_eq {u a c : Str} (hfs : findSplit chColon u = some (a, c))
    (hcond : a ≠ [] ∧ isAsciiAlphaC a.headI = true ∧ a.all schemeChar = true) :
    schemeSplit u = (pyLower a, c) := by
  unfold schemeSplit
  rw [hfs]
  show (if a ≠ [] ∧ isAsciiAlphaC a.headI = true ∧ a.all schemeChar = true
    then (pyLower a, c) else ([], u)) = (pyLower a, c)
  rw [if_pos hcond]

theorem schemeSplit_fail_eq {u a c : Str} (hfs : findSplit chColon u = some (a, c))
    (hcond : ¬ (a ≠ [] ∧ isAsciiAlphaC a.headI = true ∧ a.all schemeChar = true)) :
    schemeSplit u = ([], u) := by
  unfold schemeSplit
  rw [hfs]
  show (if a ≠ [] ∧ isAsciiAlphaC a.headI = true ∧ a.all schemeChar = true
    then (pyLower a, c) else ([], u)) = ([], u)
  rw [if_neg hcond]

/-- A failed scheme recognition forces the scheme-candidate prefix before
the first `:` to be invalid. -/
theorem schemeSplit_fail_cond {u a c : Str} (hfs : findSplit chColon u = some (a, c))
    (h : schemeSplit u = ([], u)) :
    ¬ (a ≠ [] ∧ isAsciiAlphaC a.headI = true ∧ a.all schemeChar = true) := by
  intro hcond
  rw [schemeSplit_some_eq hfs hcond] at h
  exact pyLower_ne_nil hcond.1 (congrArg Prod.fst h)

/-- Failure of scheme recognition over a delimiter-led tail transfers to
every other delimiter-led tail after the same path. -/
theorem schemeSplit_fail_transfer {p t0 t1 : Str} (h0 : tShape t0) (h1 : tShape t1)
    (h : schemeSplit (p ++ t0) = ([], p ++ t0)) :
    schemeSplit (p ++ t1) = ([], p ++ t1) := by
  by_cases hcp : chColon ∈ p
  · obtain ⟨⟨a, b⟩, hfs⟩ := findSplit_isSome_of_mem hcp
    obtain ⟨hpd, hna⟩ := findSplit_spec hfs
    have hfs0 : findSplit chColon (p ++ t0) = some (a, b ++ t0) := by
      rw [hpd, List.append_assoc]
      exact findSplit_append hna
    have hfs1 : findSplit chColon (p ++ t1) = some (a, b ++ t1) := by
      rw [hpd, List.append_assoc]
      exact findSplit_append hna
    exact schemeSplit_fail_eq hfs1 (schemeSplit_fail_cond hfs0 h)
  · cases t1 with
    | nil =>
      apply schemeSplit_none_eq
      apply findSplit_eq_none
      simpa using hcp
    | cons c rest =>
      by_cases hct : chColon ∈ (c :: rest)
      · obtain ⟨⟨a, b⟩, hfs⟩ := findSplit_isSome_of_mem hct
        obtain ⟨hdec, hna⟩ := findSplit_spec hfs
        have hfsu : findSplit chColon (p ++ c :: rest) = some (p ++ a, b) := by
          rw [hdec, ← List.append_assoc]
          apply findSplit_append
          intro hm
          rcases List.mem_append.mp hm with hm | hm
          · exact hcp hm
          · exact hna hm
        apply schemeSplit_fail_eq hfsu
        intro hcond
        have hane : a ≠ [] := by
          intro ha0
          subst ha0
          simp only [List.nil_append] at hdec
          injection hdec with hc1 hc2
          rcases h1 with h' | h' | h' <;> rw [hc1] at h' <;> exact absurd h' (by decide)
        have hhd : a.headI = c := by
          cases a with
          | nil => exact absurd rfl hane
          | cons a0 arest =>
            simp only [List.cons_append] at hdec
            injection hdec with hc1 hc2
            exact hc1.symm
        have hmem : c ∈ p ++ a := List.mem_append.mpr (Or.inr (hhd ▸ headI_mem hane))
        have hnsc : schemeChar c = false := by
          rcases h1 with h' | h' | h' <;> rw [h'] <;> decide
        have hall := hcond.2.2
        rw [List.all_eq_true] at hall
        have := hall c hmem
        rw [hnsc] at this
        exact Bool.noConfusion this
      · apply schemeSplit_none_eq
        apply findSplit_eq_none
        intro hm
        rcases List.mem_append.mp hm with hm | hm
        · exact hcp hm
        · exact hct hm

theorem headI_slash_of_take2 {p : Str} (h : p.take 2 = [chSlash, chSlash]) :
    p.headI = chSlash := by
  cases p with
  | nil => simp at h
  | cons c t =>
    show c = chSlash
    have h2 : c :: t.take 1 = [chSlash, chSlash] := h
    exact (List.cons.injEq .. ▸ h2).1

theorem tailOf_cases (q f : Str) :
    (q = [] ∧ f = [] ∧ tailOf q f = []) ∨
    (q = [] ∧ f ≠ [] ∧ tailOf q f = chHash :: f) ∨
    (q ≠ [] ∧ f = [] ∧ tailOf q f = chQmark :: q) ∨
    (q ≠ [] ∧ f ≠ [] ∧ tailOf q f = chQmark :: (q ++ chHash :: f)) := by
  unfold tailOf
  by_cases hq : q = []
  · by_cases hf : f = []
    · refine Or.inl ⟨hq, hf, ?_⟩
      rw [if_neg (by simp [hq]), if_neg (by simp [hf])]
      rfl
    · refine Or.inr (Or.inl ⟨hq, hf, ?_⟩)
      rw [if_neg (by simp [hq]), if_pos hf]
      rfl
  · by_cases hf : f = []
    · refine Or.inr (Or.inr (Or.inl ⟨hq, hf, ?_⟩))
      rw [if_pos hq, if_neg (by simp [hf])]
      simp
    · refine Or.inr (Or.inr (Or.inr ⟨hq, hf, ?_⟩))
      rw [if_pos hq, if_pos hf]
      rfl

theorem tailOf_tShape (q f : Str) : tShape (tailOf q f) := by
  rcases tailOf_cases q f with ⟨_, _, ht⟩ | ⟨_, _, ht⟩ | ⟨_, _, ht⟩ | ⟨_, _, ht⟩
  · rw [ht]
    trivial
  · rw [ht]
    exact Or.inr (Or.inl rfl)
  · rw [ht]
    exact Or.inl rfl
  · rw [ht]
    exact Or.inl rfl

theorem take2_ne_slashes {p t : Str}
    (hcond : p = [] ∨ ¬ p.take 2 = [chSlash, chSlash]) (hts : tShapeQF t) :
    ¬ (p ++ t).take 2 = [chSlash, chSlash] := by
  intro hcontra
  cases p with
  | nil =>
    simp only [List.nil_append] at hcontra
    cases t with
    | nil => simp at hcontra
    | cons c rest =>
      have h2 : c :: rest.take 1 = [chSlash, chSlash] := hcontra
      have hc : c = chSlash := (List.cons.injEq .. ▸ h2).1
      rcases hts with h' | h' <;> rw [hc] at h' <;> exact absurd h' (by decide)
  | cons c rest =>
    rcases hcond with hc0 | hc2
    · exact absurd hc0 (List.cons_ne_nil c rest)
    · cases rest with
      | cons d rr =>
        have h2 : c :: d :: ([] : Str) = [chSlash, chSlash] := hcontra
        obtain ⟨h1, h3⟩ := List.cons.injEq .. ▸ h2
        obtain ⟨h4, _⟩ := List.cons.injEq .. ▸ h3
        apply hc2
        show c :: d :: ([] : Str) = [chSlash, chSlash]
        rw [h1, h4]
      | nil =>
        have h2 : c :: t.take 1 = [chSlash, chSlash] := hcontra
        obtain ⟨h1, h3⟩ := List.cons.injEq .. ▸ h2
        cases t with
        | nil => simp at h3
        | cons e et =>
          have h4 : e :: ([] : Str) = [chSlash] := h3
          have he : e = chSlash := (List.cons.injEq .. ▸ h4).1
          rcases hts with h' | h' <;> rw [he] at h' <;> exact absurd h' (by decide)

theorem netlocStage_noslash {p t : Str}
    (hcond : p = [] ∨ ¬ p.take 2 = [chSlash, chSlash]) (hts : tShapeQF t) :
    netlocStage (p ++ t) = ([], p ++ t) := by
  unfold netlocStage
  rw [if_neg (take2_ne_slashes hcond hts)]

/-- C1 (counterexample): the claim's rubric (`+5` only for `1 ≤
redirect_count ≤ 3`) disagrees with `calculate_quality_score` at
`redirect_count = -1`: the code's `elif redirect_count <= 3` branch awards
`+5` to a negative count, the claim awards `+0`. -/
theorem C1_counterexample :
    ¬ (calculate_quality_score none (-1) false false
        = qualityScoreRubricC1 none (-1) false false) := by
  decide

/-- C1 (amended): `calculate_quality_score` equals the §4.5 additive rubric
capped at 100, with the redirect bonus amended to `+10 if redirect_count ==
0, else +5 if redirect_count <= 3, else +0` (the code does not lower-bound
the `+5` branch). -/
theorem C1_amended (status_code : Option Int) (redirect_count : Int)
    (has_content has_markdown : Bool) :
    calculate_quality_score status_code redirect_count has_content has_markdown
      = qualityScoreRubricAmended status_code redirect_count has_content has_markdown := by
  unfold calculate_quality_score qualityScoreRubricAmended truthyInRange inRangeOpt
  rcases status_code with _ | c <;>
    cases has_content <;>
    cases has_markdown <;>
    simp only [Option.some.injEq, Bool.and_eq_true, decide_eq_true_eq,
      reduceCtorEq, if_false] <;>
    split_ifs <;>
    omega

/-- C2 (counterexample): `calculate_quality_score(200, 0, True, True)`
returns 90, not 100 — the rubric's maximum is `40 + 10 + 20 + 20 = 90`. -/
theorem C2_counterexample :
    ¬ (calculate_quality_score (some 200) 0 true true = 100) := by
  decide

/-- C2 (amended): on the input `(status_code=200, redirect_count=0,
has_content=True, has_markdown=True)` the score is exactly 90. -/
theorem C2_amended : calculate_quality_score (some 200) 0 true true = 90 := by
  decide

/-- C3: `fetch_url` is total over every fetch outcome (every exception
class is caught — the model has no failure output), and in its returned
metadata the `error` field is populated exactly when the HTML content is
`None`; when HTML is returned, `error` is `None`. -/
theorem C3_error_iff_no_html (nfkc : Str → Str) (brOk : Str → Bool)
    (url : Str) (outcome : FetchOutcome) :
    ((fetch_url nfkc brOk url outcome).2.2.error.isSome
      ↔ (fetch_url nfkc brOk url outcome).1 = none) ∧
    ((fetch_url nfkc brOk url outcome).1 ≠ none
      → (fetch_url nfkc brOk url outcome).2.2.error = none) := by
  cases outcome with
  | response status ct respUrl text =>
    simp only [fetch_url]
    split_ifs <;> simp
  | timeout => simp [fetch_url]
  | connectionError msg => simp [fetch_url]
  | requestError msg => simp [fetch_url]
  | otherException msg => simp [fetch_url]

/-- C9: `fetch_url` treats every HTTP status other than exactly 200 —
2xx codes included — as a failure: no HTML is returned and the error is the
string `HTTP <status_code>`; body text (and the content-type check) is only
reached at status 200. -/
theorem C9_non_200_is_error (nfkc : Str → Str) (brOk : Str → Bool)
    (url : Str) (status : Int) (ct respUrl text : Str) (h : status ≠ 200) :
    (fetch_url nfkc brOk url (.response status ct respUrl text)).1 = none ∧
    (fetch_url nfkc brOk url (.response status ct respUrl text)).2.2.error
      = some ("HTTP ".toList ++ intStr status) := by
  simp [fetch_url, h]

/-- C9 (witness): status 204 — a 2xx success for HTTP — is rejected with
error `HTTP 204` and no content. -/
theorem C9_witness :
    (204 : Int) ≠ 200 ∧
    ((fetch_url id (fun _ => true) "https://a.example/".toList
        (.response 204 "text/html".toList "https://a.example/".toList "x".toList)).1
        = none ∧
      (fetch_url id (fun _ => true) "https://a.example/".toList
        (.response 204 "text/html".toList "https://a.example/".toList "x".toList)).2.2.error
        = some "HTTP 204".toList) :=
  ⟨by decide,
    by
      have h := C9_non_200_is_error id (fun _ => true) "https://a.example/".toList
        204 "text/html".toList "https://a.example/".toList "x".toList (by decide)
      refine ⟨h.1, ?_⟩
      rw [h.2]
      decide⟩

/-- C7 (counterexample): on a timeout the returned `final_url` is the
original URL unchanged, which is not in §4.1-normalized form: the normalizer
strips its `utm_source` parameter, so `final_url` is not a fixed point of
`remove_utm_parameters`. -/
theorem C7_counterexample :
    (fetch_url id (fun _ => true) "https://x.com/a?utm_source=g".toList .timeout).2.1
      = "https://x.com/a?utm_source=g".toList ∧
    remove_utm_parameters id (fun _ => true) "https://x.com/a?utm_source=g".toList
      ≠ "https://x.com/a?utm_source=g".toList := by
  exact ⟨rfl, by decide⟩

/-- C7 (amended): `final_url` is normalized via §4.1 whenever a response
was obtained (any status); on the exception outcomes (timeout, connection
error, request error, unexpected exception) `fetch_url` returns the
original URL unchanged, without normalizing it. -/
theorem C7_amended (nfkc : Str → Str) (brOk : Str → Bool) (url : Str) :
    (∀ (status : Int) (ct respUrl text : Str),
      (fetch_url nfkc brOk url (.response status ct respUrl text)).2.1
        = remove_utm_parameters nfkc brOk respUrl) ∧
    (fetch_url nfkc brOk url .timeout).2.1 = url ∧
    (∀ msg, (fetch_url nfkc brOk url (.connectionError msg)).2.1 = url) ∧
    (∀ msg, (fetch_url nfkc brOk url (.requestError msg)).2.1 = url) ∧
    (∀ msg, (fetch_url nfkc brOk url (.otherException msg)).2.1 = url) := by
  refine ⟨?_, rfl, fun _ => rfl, fun _ => rfl, fun _ => rfl⟩
  intro status ct respUrl text
  simp only [fetch_url]
  split_ifs <;> rfl

theorem crawl_url_stats_processed (s : CrawlStats) (o : CrawlOutcome) :
    (crawl_url_stats s o).processed = s.processed + 1 := by
  cases o with
  | response status redirects =>
    simp only [crawl_url_stats]
    split_ifs <;> rfl
  | timeout => rfl
  | connectionError msg => rfl
  | requestError msg => rfl
  | otherException msg => rfl

theorem crawl_url_stats_kindSum {o : CrawlOutcome} (h : classifiedOutcome o)
    (s : CrawlStats) : kindSum (crawl_url_stats s o) = kindSum s + 1 := by
  cases o with
  | response status redirects =>
    unfold classifiedOutcome at h
    simp only [crawl_url_stats, kindSum]
    rcases h with h | h
    · rw [if_pos h]
      split_ifs <;> simp <;> omega
    · by_cases h2 : 200 ≤ status ∧ status < 300
      · rw [if_pos h2]
        split_ifs <;> simp <;> omega
      · rw [if_neg h2]
        by_cases h4 : 400 ≤ status ∧ status < 500
        · rw [if_pos h4]
          split_ifs <;> simp <;> omega
        · rw [if_neg h4, if_pos (by omega)]
          split_ifs <;> simp <;> omega
  | timeout => simp [crawl_url_stats, kindSum]; omega
  | connectionError msg => simp [crawl_url_stats, kindSum]; omega
  | requestError msg => simp [crawl_url_stats, kindSum]; omega
  | otherException msg => simp [crawl_url_stats, kindSum]; omega

theorem foldl_crawl_stats (outcomes : List CrawlOutcome)
    (h : ∀ o ∈ outcomes, classifiedOutcome o) (s : CrawlStats) :
    (outcomes.foldl crawl_url_stats s).processed = s.processed + outcomes.length ∧
    kindSum (outcomes.foldl crawl_url_stats s) = kindSum s + outcomes.length := by
  induction outcomes generalizing s with
  | nil => simp
  | cons o rest ih =>
    simp only [List.foldl_cons, List.length_cons]
    obtain ⟨ih1, ih2⟩ := ih (fun q hq => h q (by simp [hq])) (crawl_url_stats s o)
    constructor
    · rw [ih1, crawl_url_stats_processed]
      omega
    · rw [ih2, crawl_url_stats_kindSum (h o (by simp))]
      omega

/-- C8 (counterexample): a single job whose final response has status 304
(redirects followed, yet a 3xx remains, e.g. a 304 or a 3xx without a
Location header) is counted in `processed` but in none of the per-kind
counters, so the kind counters sum to 0 ≠ 1 = N. -/
theorem C8_counterexample :
    (runStats [CrawlOutcome.response 304 0]).processed = 1 ∧
    kindSum (runStats [CrawlOutcome.response 304 0]) ≠ 1 := by
  decide

/-- C8 (amended): over any run whose response statuses all fall in
`[200,300) ∪ [400,600)` (every exception outcome is always classified), the
six per-kind counters sum to N = processed = the number of jobs — each
job's outcome is counted exactly once in exactly one kind.  Statuses
outside those ranges (1xx, 3xx, ≥600) increment no kind counter. -/
theorem C8_amended (outcomes : List CrawlOutcome)
    (h : ∀ o ∈ outcomes, classifiedOutcome o) :
    (runStats outcomes).processed = outcomes.length ∧
    kindSum (runStats outcomes) = outcomes.length := by
  have := foldl_crawl_stats outcomes h initStats
  simpa [runStats, initStats, kindSum] using this

/-- C8 (witness): a mixed run — a 200 with one redirect, a timeout, and a
404 — has all three counters summing to 3 = N. -/
theorem C8_witness :
    (∀ o ∈ [CrawlOutcome.response 200 1, CrawlOutcome.timeout,
        CrawlOutcome.response 404 0], classifiedOutcome o) ∧
    (runStats [CrawlOutcome.response 200 1, CrawlOutcome.timeout,
        CrawlOutcome.response 404 0]).processed = 3 ∧
    kindSum (runStats [CrawlOutcome.response 200 1, CrawlOutcome.timeout,
        CrawlOutcome.response 404 0]) = 3 := by
  have hcl : ∀ o ∈ [CrawlOutcome.response 200 1, CrawlOutcome.timeout,
      CrawlOutcome.response 404 0], classifiedOutcome o := by
    intro o ho
    simp only [List.mem_cons, List.not_mem_nil, or_false] at ho
    rcases ho with ho | ho | ho <;> rw [ho] <;> simp [classifiedOutcome]
  have h := C8_amended [CrawlOutcome.response 200 1, CrawlOutcome.timeout,
    CrawlOutcome.response 404 0] hcl
  exact ⟨hcl, by simpa using h⟩

/-- C10: when the caller supplies a non-empty tags list whose entries are
all blank (empty, or whitespace-only after stripping), the rendered tags
block is just the `tags:` line with zero entries — the default `clippings`
tag is only added when the supplied list is empty. -/
theorem C10_blank_tags (tags : List Str) (hne : tags ≠ [])
    (hblank : ∀ t ∈ tags, pyStrip t = []) :
    convertTagsLines tags = ["tags:".toList] := by
  unfold convertTagsLines
  rw [if_pos hne]
  have : tags.filterMap (fun tag =>
      if tag ≠ [] then
        let tag_str := pyStrip tag
        if tag_str ≠ [] then some ("  - ".toList ++ escape_yaml_value tag_str)
        else none
      else none) = [] := by
    rw [List.filterMap_eq_nil_iff]
    intro tag htag
    by_cases h0 : tag = []
    · simp [h0]
    · simp only [if_pos h0, ne_eq]
      rw [if_neg (by simpa using hblank tag htag)]
  rw [this]

/-- C6: under extraction method `auto`, for HTML where the structured
(trafilatura) strategy yields no content, `extract_content` returns the
heuristic (readability) strategy's result (`method == 'readability'`,
`success == true`) whenever that strategy yields content; and for HTML
where both strategies fail it returns `method == 'raw'`, `success ==
false`, with the original input HTML as the content. -/
theorem C6_auto_fallback (δ : Type) (dateFromHtml : Option δ) (html_content url : Str) :
    (∀ (title cleanHtml : Str) (fp : Option Str), cleanHtml ≠ [] →
      (extract_content δ .noContent (.summary title cleanHtml (some fp)) dateFromHtml
          html_content url "auto".toList).method = "readability".toList ∧
      (extract_content δ .noContent (.summary title cleanHtml (some fp)) dateFromHtml
          html_content url "auto".toList).success = true) ∧
    (∀ (tOut : TrafOutcome δ) (rOut : ReadOutcome), trafFails δ tOut → readFails rOut →
      (extract_content δ tOut rOut dateFromHtml html_content url "auto".toList).method
        = "raw".toList ∧
      (extract_content δ tOut rOut dateFromHtml html_content url "auto".toList).success
        = false ∧
      (extract_content δ tOut rOut dateFromHtml html_content url "auto".toList).content
        = some html_content) := by
  have hAT : ¬ ("auto".toList = "trafilatura".toList) := by decide
  have hAR : ¬ ("auto".toList = "readability".toList) := by decide
  constructor
  · intro title cleanHtml fp hne
    cases fp
    all_goals
      simp only [extract_content, readabilityStage, true_or, if_true]
      rw [if_neg hne]
      split_ifs <;> simp
  · intro tOut rOut ht hr
    have hread : ∀ r : ExtractResult δ,
        (readabilityStage δ rOut dateFromHtml html_content "auto".toList r).method
          = "raw".toList ∧
        (readabilityStage δ rOut dateFromHtml html_content "auto".toList r).success
          = false ∧
        (readabilityStage δ rOut dateFromHtml html_content "auto".toList r).content
          = some html_content := by
      intro r
      cases rOut with
      | raised =>
        simp only [readabilityStage, true_or, if_true]
        rw [if_neg hAR]
        simp [rawStage]
      | summary t c paras =>
        cases paras with
        | none =>
          simp only [readFails] at hr
          by_cases hc : c = []
          · simp only [readabilityStage, true_or, if_true]
            rw [if_pos hc]
            simp [rawStage]
          · simp only [readabilityStage, true_or, if_true]
            rw [if_neg hc, if_neg hAR]
            simp [rawStage]
        | some fp =>
          simp only [readFails] at hr
          simp only [readabilityStage, true_or, if_true]
          rw [if_pos hr]
          simp [rawStage]
    cases tOut with
    | raised =>
      simp only [extract_content, true_or, if_true]
      rw [if_neg hAT]
      exact hread _
    | noContent =>
      simp only [extract_content, true_or, if_true]
      exact hread _
    | content meta reparse =>
      cases reparse with
      | none =>
        simp only [extract_content, true_or, if_true]
        rw [if_neg hAT]
        exact hread _
      | some pr => exact absurd ht (by simp [trafFails])

/-- C6 (witness): concrete instances — trafilatura yields nothing while
readability returns a non-empty summary (result is the readability result),
and trafilatura yields nothing while readability raises (result is the raw
fallback carrying the original HTML). -/
theorem C6_witness :
    (("x".toList : Str) ≠ [] ∧
      (extract_content Unit .noContent (.summary "T".toList "x".toList (some none)) none
          "h".toList "u".toList "auto".toList).method = "readability".toList ∧
      (extract_content Unit .noContent (.summary "T".toList "x".toList (some none)) none
          "h".toList "u".toList "auto".toList).success = true) ∧
    (trafFails Unit .noContent ∧ readFails .raised ∧
      (extract_content Unit .noContent .raised none
          "h".toList "u".toList "auto".toList).method = "raw".toList ∧
      (extract_content Unit .noContent .raised none
          "h".toList "u".toList "auto".toList).success = false ∧
      (extract_content Unit .noContent .raised none
          "h".toList "u".toList "auto".toList).content = some "h".toList) := by
  constructor
  · refine ⟨by decide, ?_⟩
    exact (C6_auto_fallback Unit none "h".toList "u".toList).1 "T".toList "x".toList
      none (by decide)
  · refine ⟨trivial, trivial, ?_⟩
    have h := (C6_auto_fallback Unit none "h".toList "u".toList).2 .noContent .raised
      trivial trivial
    exact ⟨h.1, h.2.1, h.2.2⟩

/-- C10 (witness): `tags=[' ', '']` renders a `tags:` line with zero
entries and no `clippings` default. -/
theorem C10_witness :
    ([" ".toList, "".toList] ≠ ([] : List Str)) ∧
    (∀ t ∈ [" ".toList, "".toList], pyStrip t = []) ∧
    convertTagsLines [" ".toList, "".toList] = ["tags:".toList] :=
  ⟨by decide, by decide, C10_blank_tags _ (by decide) (by decide)⟩

end PLM
